import Mathlib

/-!
Verification of the Insyte event tracker.

Shallow embedding of the Insyte repository (an event-tracking helper over a
Redis-style key-value store) and proofs of its specified properties.

Source layout:
* `Insyte` class (constructor, `track`, `retrieve`, `retrieveDays`);
* `getDate` utility (`format(subDays(new Date(), sub), 'dd/MM/yyyy')`);
* type declarations (`InsyteArgs`, `InsyteRetrieveResult`).

The external Redis client (Upstash) is modelled by its documented command
semantics (`HINCRBY`, `HGETALL`, `EXPIRE`); the external date library
(date-fns) is modelled by Gregorian-calendar day arithmetic and
format/parse of the `dd/MM/yyyy` pattern.
-/

set_option autoImplicit false

namespace Insyte

/-! ## JSON values and `JSON.stringify`

`track` serializes the event payload with `JSON.stringify({ event })` and
uses the resulting string as the hash field.  We model JSON values with a
small AST and a stringify function producing the same shape of output
(string escaping of special characters inside string literals is not
modelled; no claim depends on it). -/

inductive Json where
  | null : Json
  | bool (b : Bool) : Json
  | num (n : Int) : Json
  | str (s : String) : Json
  | arr (elems : List Json) : Json
  | obj (fields : List (String × Json)) : Json
deriving Repr

mutual

def jsonStringify : Json → String
  | .null => "null"
  | .bool true => "true"
  | .bool false => "false"
  | .num n => toString n
  | .str s => "\x22" ++ s ++ "\x22"
  | .arr es => "[" ++ stringifyElems es ++ "]"
  | .obj fs => "\x7b" ++ stringifyFields fs ++ "\x7d"

def stringifyElems : List Json → String
  | [] => ""
  | [e] => jsonStringify e
  | e :: rest => jsonStringify e ++ "," ++ stringifyElems rest

def stringifyFields : List (String × Json) → String
  | [] => ""
  | [(k, v)] => "\x22" ++ k ++ "\x22:" ++ jsonStringify v
  | (k, v) :: rest => "\x22" ++ k ++ "\x22:" ++ jsonStringify v ++ "," ++ stringifyFields rest

end

/-- The hash-field string `track` stores the event under:
`JSON.stringify({ event })`. -/
def fieldOf (event : Json) : String :=
  jsonStringify (Json.obj [("event", event)])

/-! ## The key-value store

Redis hashes are maps from field strings to (integer-representing string)
values; we model the values directly as integers (`HINCRBY` keeps them
integral, and JavaScript `Number` recovers the integer exactly).  The store
is a map from keys to hashes together with a TTL table.  Association lists
keep everything executable. -/

abbrev Hash := List (String × Int)

namespace Hash

/-- Redis `HINCRBY` on a single hash: increment the field by `d`, creating it at
`d` (i.e. `0 + d`) when absent. -/
def incr : Hash → String → Int → Hash
  | [], f, d => [(f, d)]
  | (g, v) :: t, f, d => if g = f then (g, v + d) :: t else (g, v) :: incr t f d

/-- Value of a field, if present. -/
def get : Hash → String → Option Int
  | [], _ => none
  | (g, v) :: t, f => if g = f then some v else get t f

end Hash

structure Store where
  data : List (String × Hash)
  ttl : List (String × Int)
deriving Repr, DecidableEq

namespace Store

/-- The hash stored at a key (`none` when the key does not exist). -/
def lookup (s : Store) (k : String) : Option Hash :=
  match s.data.find? (fun p => p.1 = k) with
  | some p => some p.2
  | none => none

def dataIncr : List (String × Hash) → String → String → Int → List (String × Hash)
  | [], k, f, d => [(k, Hash.incr [] f d)]
  | (k', h) :: t, k, f, d =>
      if k' = k then (k', Hash.incr h f d) :: t else (k', h) :: dataIncr t k f d

/-- Redis `HINCRBY key field d`: atomic increment of a hash field, creating
the key and the field as needed.  It never touches TTLs. -/
def hincrby (s : Store) (k f : String) (d : Int) : Store :=
  { s with data := dataIncr s.data k f d }

def ttlSet : List (String × Int) → String → Int → List (String × Int)
  | [], k, t => [(k, t)]
  | (k', v) :: r, k, t => if k' = k then (k', t) :: r else (k', v) :: ttlSet r k t

/-- Redis `EXPIRE key t`: set the key's TTL to `t` seconds when the key
exists; a no-op on a nonexistent key (Redis returns 0 and stores nothing). -/
def expire (s : Store) (k : String) (t : Int) : Store :=
  match s.lookup k with
  | some _ => { s with ttl := ttlSet s.ttl k t }
  | none => s

/-- Redis `HGETALL key`: the full hash at the key; the Upstash client
resolves to `null` (here `none`) for a nonexistent key. -/
def hgetall (s : Store) (k : String) : Option Hash :=
  s.lookup k

/-- TTL currently recorded for a key. -/
def ttlGet (s : Store) (k : String) : Option Int :=
  match s.ttl.find? (fun p => p.1 = k) with
  | some p => some p.2
  | none => none

/-- Count of a field inside the hash at a key. -/
def hashGet (s : Store) (k f : String) : Option Int :=
  match s.lookup k with
  | some h => Hash.get h f
  | none => none

/-- Count of a field, defaulting to 0 when key or field is absent. -/
def countOf (s : Store) (k f : String) : Int :=
  (s.hashGet k f).getD 0

end Store

/-- One request issued to the store, in program order. -/
inductive StoreOp where
  | expire (key : String) (seconds : Int) : StoreOp
  | hincrby (key field : String) (delta : Int) : StoreOp
  | hgetall (key : String) : StoreOp
deriving Repr, DecidableEq

/-! ## Dates (the date-fns collaborator)

`getDate(sub)` is `format(subDays(new Date(), sub), 'dd/MM/yyyy')` and
`retrieveDays` compares `parse(_, 'dd/MM/yyyy', new Date())` values.  We
model a calendar day as a Gregorian `(year, month, day)` triple; "N days
before now" steps the calendar backwards N times; JavaScript `Date`
comparison of two days is lexicographic comparison of the triples. -/

structure CivilDate where
  year : Nat
  month : Nat
  day : Nat
deriving Repr, DecidableEq

def isLeap (y : Nat) : Bool :=
  (y % 4 = 0 && y % 100 != 0) || y % 400 = 0

def daysInMonth (m y : Nat) : Nat :=
  if m = 2 then (if isLeap y then 29 else 28)
  else if m = 4 || m = 6 || m = 9 || m = 11 then 30
  else 31

/-- A representable Gregorian date (proleptic, years from 1). -/
def validDate (d : CivilDate) : Prop :=
  1 ≤ d.year ∧ 1 ≤ d.month ∧ d.month ≤ 12 ∧ 1 ≤ d.day ∧ d.day ≤ daysInMonth d.month d.year

instance (d : CivilDate) : Decidable (validDate d) := by
  unfold validDate; infer_instance

/-- The calendar day immediately before `d`. -/
def prevDay (d : CivilDate) : CivilDate :=
  if 1 < d.day then ⟨d.year, d.month, d.day - 1⟩
  else if 1 < d.month then ⟨d.year, d.month - 1, daysInMonth (d.month - 1) d.year⟩
  else ⟨d.year - 1, 12, 31⟩

/-- date-fns `subDays(now, n)`: the calendar day `n` days before `now`. -/
def subDays (d : CivilDate) : Nat → CivilDate
  | 0 => d
  | n + 1 => prevDay (subDays d n)

/-- Chronological strict order on calendar days (JavaScript compares the
parsed `Date` timestamps; for days with equal time-of-day this is the
lexicographic order on year, month, day). -/
def dateLt (a b : CivilDate) : Bool :=
  a.year < b.year ||
    (a.year = b.year &&
      (a.month < b.month || (a.month = b.month && a.day < b.day)))

/-- Decimal value of a digit character, if it is one. -/
def digitVal (c : Char) : Option Nat :=
  if 48 ≤ c.toNat && c.toNat ≤ 57 then some (c.toNat - 48) else none

/-- Two-digit zero-padded rendering (format tokens `dd` and `MM`). -/
def pad2 (n : Nat) : List Char :=
  [Nat.digitChar (n / 10 % 10), Nat.digitChar (n % 10)]

/-- Four-digit zero-padded rendering (format token `yyyy`). -/
def pad4 (n : Nat) : List Char :=
  [Nat.digitChar (n / 1000 % 10), Nat.digitChar (n / 100 % 10),
   Nat.digitChar (n / 10 % 10), Nat.digitChar (n % 10)]

/-- date-fns `format(d, 'dd/MM/yyyy')`. -/
def formatDate (d : CivilDate) : String :=
  ⟨pad2 d.day ++ '/' :: pad2 d.month ++ '/' :: pad4 d.year⟩

def readDate : List Char → Option CivilDate
  | [a, b, s1, c, d, s2, e, f, g, h] =>
    if s1 = '/' && s2 = '/' then
      match digitVal a, digitVal b, digitVal c, digitVal d,
            digitVal e, digitVal f, digitVal g, digitVal h with
      | some a', some b', some c', some d', some e', some f', some g', some h' =>
          some ⟨e' * 1000 + f' * 100 + g' * 10 + h', c' * 10 + d', a' * 10 + b'⟩
      | _, _, _, _, _, _, _, _ => none
  else none
  | _ => none

/-- date-fns `parse(s, 'dd/MM/yyyy', refDate)`: succeeds exactly on
`dd/MM/yyyy`-shaped strings, returning the triple; `none` models the
`Invalid Date` result. -/
def parseDate (s : String) : Option CivilDate :=
  readDate s.data

/-- The `getDate(sub)` utility: format "sub days before now". -/
def getDate (now : CivilDate) (sub : Nat) : String :=
  formatDate (subDays now sub)

/-! ## The Insyte class

State threads explicitly: each method takes the store (and `now`, the
current day, standing for `new Date()`) and returns its result together
with the list of store requests it issued, in program order.  Retention is
a JavaScript number holding whole seconds; we model it as `Int`. -/

/-- The `InsyteArgs['opts']` record. -/
structure InsyteOpts where
  retention : Int
deriving Repr, DecidableEq

structure Tracker where
  retention : Int
deriving Repr, DecidableEq

/-- Value `60 * 60 * 24 * 7`, the initializer of the private `retention` field. -/
def defaultRetention : Int := 60 * 60 * 24 * 7

/-- The constructor: `if (opts?.retention) this.retention = opts.retention`.
JavaScript truthiness on a number is `!= 0` (NaN, which is also falsy, has
no counterpart on `Int`). -/
def Tracker.new (opts : Option InsyteOpts) : Tracker :=
  match opts with
  | some o => if o.retention != 0 then ⟨o.retention⟩ else ⟨defaultRetention⟩
  | none => ⟨defaultRetention⟩

/-- Method `track({name, event, persist})`: build `insyte::<name>`; when not
persisting, append `::<getDate()>` and `EXPIRE` the key to `retention`
first; then `HINCRBY` the serialized event field by 1. -/
def Tracker.track (ins : Tracker) (now : CivilDate) (name : String)
    (event : Json) (persist : Bool) (s : Store) : Store × List StoreOp :=
  let key := "insyte::" ++ name
  let field := fieldOf event
  if persist then
    (s.hincrby key field 1, [StoreOp.hincrby key field 1])
  else
    let key2 := key ++ "::" ++ getDate now 0
    ((s.expire key2 ins.retention).hincrby key2 field 1,
     [StoreOp.expire key2 ins.retention, StoreOp.hincrby key2 field 1])

/-- The `InsyteRetrieveResult` shape: `{date, event}` where each element of `event`
stands for the singleton object `{ <rawFieldString>: Number(<value>) }`. -/
structure RetrieveResult where
  date : String
  event : List (String × Int)
deriving Repr, DecidableEq

/-- Method `retrieve({name, date})`: `HGETALL insyte::<name>::<date>`, then
`Object.entries(data ?? []).map(([k, v]) => ({ [k]: Number(v) }))` — the
field string is kept raw (not JSON-decoded) and the value becomes a
number (exact on the integers `HINCRBY` maintains). -/
def Tracker.retrieve (name date : String) (s : Store) :
    RetrieveResult × List StoreOp :=
  let key := "insyte::" ++ name ++ "::" ++ date
  let data := s.hgetall key
  ({ date := date,
     event := (data.getD []).map (fun p => (p.1, p.2)) },
   [StoreOp.hgetall key])

/-- Comparison `parse(a.date) > parse(b.date)` with JavaScript `>` on `Date`s: any
comparison against an `Invalid Date` (NaN timestamp) is false. -/
def jsGtDate : Option CivilDate → Option CivilDate → Bool
  | some a, some b => dateLt b a
  | some _, none => false
  | none, _ => false

/-- The comparator passed to `Array.prototype.sort`:
`(a, b) => parse(a.date) > parse(b.date) ? 1 : -1`. -/
def jsGt (a b : RetrieveResult) : Bool :=
  jsGtDate (parseDate a.date) (parseDate b.date)

def insertAsc (x : RetrieveResult) : List RetrieveResult → List RetrieveResult
  | [] => [x]
  | y :: t => if jsGt x y then y :: insertAsc x t else x :: y :: t

/-- JavaScript `Array.prototype.sort` with the comparator above.  The engine's
algorithm is unspecified; on inputs where the comparator is a strict total
order (all dates parse and are distinct — the case `retrieveDays`
produces) every comparison sort returns the unique sorted permutation, so
insertion sort is a faithful model there. -/
def sortResults : List RetrieveResult → List RetrieveResult
  | [] => []
  | x :: t => insertAsc x (sortResults t)

/-- Method `retrieveDays({name, nDays = 1})`: one `retrieve` per `i` with
`0 <= i < nDays` (the `for` loop runs `max nDays 0` times, so a
non-positive `nDays` yields no requests), `Promise.all`, then sort
ascending by parsed date.  `nDays` is `Int` because the declared `number`
admits non-positive values. -/
def Tracker.retrieveDays (now : CivilDate) (name : String) (nDays : Int)
    (s : Store) : List RetrieveResult × List StoreOp :=
  let pairs := (List.range nDays.toNat).map
    (fun i => Tracker.retrieve name (getDate now i) s)
  (sortResults (pairs.map (fun p => p.1)), pairs.flatMap (fun p => p.2))

/-! ### Fallible reads

For the error-path claims the store read is a function from keys to either
an error (a rejected promise, identified by its payload) or a hash;
`Promise.all` rejects with the first rejection. -/

/-- Method `retrieve` against a fallible store: a failing `HGETALL` is caught,
logged and re-thrown unchanged, so the same error propagates. -/
def Tracker.retrieveE (fetch : String → Except String (Option Hash))
    (name date : String) : Except String RetrieveResult :=
  match fetch ("insyte::" ++ name ++ "::" ++ date) with
  | .error e => .error e
  | .ok data =>
      .ok { date := date, event := (data.getD []).map (fun p => (p.1, p.2)) }

/-- JavaScript `Promise.all`: all values, or the first rejection. -/
def promiseAll {α : Type} : List (Except String α) → Except String (List α)
  | [] => .ok []
  | .error e :: _ => .error e
  | .ok a :: t =>
      match promiseAll t with
      | .error e => .error e
      | .ok as => .ok (a :: as)

/-- Method `retrieveDays` against a fallible store: fan out, `Promise.all`, sort
on success; a rejection is caught, logged, and re-thrown unchanged. -/
def Tracker.retrieveDaysE (fetch : String → Except String (Option Hash))
    (now : CivilDate) (name : String) (nDays : Int) :
    Except String (List RetrieveResult) :=
  match promiseAll ((List.range nDays.toNat).map
      (fun i => Tracker.retrieveE fetch name (getDate now i))) with
  | .error e => .error e
  | .ok results => .ok (sortResults results)

/-! ## Keys used by the tracker -/

/-- Key `insyte::<name>` — the key used by `track` with `persist = true`. -/
def persistKey (name : String) : String := "insyte::" ++ name

/-- Key `insyte::<name>::<date>` — the key `retrieve` reads. -/
def dayKey (name date : String) : String := "insyte::" ++ name ++ "::" ++ date

/-- Key `insyte::<name>::<today>` — the key used by `track` with `persist = false`. -/
def ephemeralKey (name : String) (now : CivilDate) : String :=
  dayKey name (getDate now 0)

/-- The unsorted per-day results `retrieveDays` builds, newest first. -/
def dayResults (now : CivilDate) (name : String) (n : Nat) (s : Store) :
    List RetrieveResult :=
  (List.range n).map (fun i => (Tracker.retrieve name (getDate now i) s).1)

/-- The per-day reads of `retrieveDaysE`, in issue order. -/
def dayReads (fetch : String → Except String (Option Hash)) (now : CivilDate)
    (name : String) (nDays : Int) : List (Except String RetrieveResult) :=
  (List.range nDays.toNat).map (fun i => Tracker.retrieveE fetch name (getDate now i))

/-- A store behaviour whose read of the 09/01/2024 key rejects. -/
def failingFetch : String → Except String (Option Hash) :=
  fun k => if k = "insyte::pv::09/01/2024" then .error "boom" else .ok none

/-! ## Store lemmas -/

theorem Hash.get_incr_self (h : Hash) (f : String) (d : Int) :
    (Hash.incr h f d).get f = some ((h.get f).getD 0 + d) := by
  induction h with
  | nil => simp [Hash.incr, Hash.get]
  | cons p t ih =>
      obtain ⟨g, v⟩ := p
      by_cases hg : g = f
      · simp [Hash.incr, Hash.get, hg]
      · simp [Hash.incr, Hash.get, hg, ih]

theorem Hash.fst_incr_of_mem (h : Hash) (f : String) (d : Int)
    (hf : (h.get f).isSome = true) :
    (Hash.incr h f d).map Prod.fst = h.map Prod.fst := by
  induction h with
  | nil => simp [Hash.get] at hf
  | cons p t ih =>
      obtain ⟨g, v⟩ := p
      by_cases hg : g = f
      · simp [Hash.incr, hg]
      · simp [Hash.get, hg] at hf
        simp [Hash.incr, hg, ih hf]

theorem Store.find_dataIncr_self (l : List (String × Hash)) (k f : String) (d : Int) :
    (Store.dataIncr l k f d).find? (fun p => p.1 = k) =
      some (k, Hash.incr ((l.find? (fun p => p.1 = k)).elim [] Prod.snd) f d) := by
  induction l with
  | nil => simp [Store.dataIncr, List.find?]
  | cons p t ih =>
      obtain ⟨k', h⟩ := p
      by_cases hk : k' = k
      · subst hk
        simp [Store.dataIncr, List.find?]
      · simp [Store.dataIncr, hk, List.find?, ih]

theorem Store.lookup_hincrby_self (s : Store) (k f : String) (d : Int) :
    (s.hincrby k f d).lookup k = some (Hash.incr ((s.lookup k).getD []) f d) := by
  unfold Store.lookup Store.hincrby
  simp [Store.find_dataIncr_self]
  cases s.data.find? (fun p => p.1 = k) <;> simp

theorem Store.ttl_hincrby (s : Store) (k f : String) (d : Int) :
    (s.hincrby k f d).ttl = s.ttl := rfl

theorem Store.data_expire (s : Store) (k : String) (t : Int) :
    (s.expire k t).data = s.data := by
  unfold Store.expire
  cases s.lookup k <;> rfl

theorem Store.lookup_expire (s : Store) (k : String) (t : Int) (k' : String) :
    (s.expire k t).lookup k' = s.lookup k' := by
  unfold Store.lookup
  rw [Store.data_expire]

theorem Store.find_ttlSet_self (l : List (String × Int)) (k : String) (t : Int) :
    (Store.ttlSet l k t).find? (fun p => p.1 = k) = some (k, t) := by
  induction l with
  | nil => simp [Store.ttlSet, List.find?]
  | cons p r ih =>
      obtain ⟨k', v⟩ := p
      by_cases hk : k' = k
      · subst hk
        simp [Store.ttlSet, List.find?]
      · simp [Store.ttlSet, hk, List.find?, ih]

theorem Store.ttlGet_expire_self (s : Store) (k : String) (t : Int)
    (hk : (s.lookup k).isSome = true) :
    (s.expire k t).ttlGet k = some t := by
  unfold Store.expire Store.ttlGet
  cases h : s.lookup k with
  | none => rw [h] at hk; simp at hk
  | some _ => simp [Store.find_ttlSet_self]

theorem Store.hashGet_hincrby_self (s : Store) (k f : String) (d : Int) :
    (s.hincrby k f d).hashGet k f = some (s.countOf k f + d) := by
  unfold Store.hashGet Store.countOf
  rw [Store.lookup_hincrby_self]
  simp only [Hash.get_incr_self]
  unfold Store.hashGet
  cases s.lookup k <;> simp [Hash.get]

theorem Store.hashGet_expire (s : Store) (k : String) (t : Int) (k' f : String) :
    (s.expire k t).hashGet k' f = s.hashGet k' f := by
  unfold Store.hashGet
  rw [Store.lookup_expire]

theorem Store.countOf_expire (s : Store) (k : String) (t : Int) (k' f : String) :
    (s.expire k t).countOf k' f = s.countOf k' f := by
  unfold Store.countOf
  rw [Store.hashGet_expire]

theorem Store.countOf_of_hashGet (s : Store) (k f : String) (c : Int)
    (h : s.hashGet k f = some c) : s.countOf k f = c := by
  unfold Store.countOf
  rw [h]
  rfl

/-- Unfolding `track` with `persist = false`: `EXPIRE` then `HINCRBY` on the
ephemeral key. -/
theorem track_ephemeral_eq (ins : Tracker) (now : CivilDate) (name : String)
    (event : Json) (s : Store) :
    ins.track now name event false s =
      ((s.expire (ephemeralKey name now) ins.retention).hincrby
          (ephemeralKey name now) (fieldOf event) 1,
       [StoreOp.expire (ephemeralKey name now) ins.retention,
        StoreOp.hincrby (ephemeralKey name now) (fieldOf event) 1]) := rfl

/-- Unfolding `track` with `persist = true`: a single `HINCRBY`. -/
theorem track_persist_eq (ins : Tracker) (now : CivilDate) (name : String)
    (event : Json) (s : Store) :
    ins.track now name event true s =
      (s.hincrby (persistKey name) (fieldOf event) 1,
       [StoreOp.hincrby (persistKey name) (fieldOf event) 1]) := rfl

/-- One ephemeral `track` call bumps the field's count by exactly 1. -/
theorem track_ephemeral_hashGet (ins : Tracker) (now : CivilDate)
    (name : String) (event : Json) (s : Store) :
    ((ins.track now name event false s).1).hashGet (ephemeralKey name now) (fieldOf event)
      = some (s.countOf (ephemeralKey name now) (fieldOf event) + 1) := by
  rw [track_ephemeral_eq]
  rw [show (((s.expire (ephemeralKey name now) ins.retention).hincrby
      (ephemeralKey name now) (fieldOf event) 1,
      [StoreOp.expire (ephemeralKey name now) ins.retention,
       StoreOp.hincrby (ephemeralKey name now) (fieldOf event) 1]).1 :
      Store) = (s.expire (ephemeralKey name now) ins.retention).hincrby
      (ephemeralKey name now) (fieldOf event) 1 from rfl]
  rw [Store.hashGet_hincrby_self, Store.countOf_expire]

/-- Claim C1: twice on the same day with `persist = false`, the same field string
`JSON.stringify({event})` under the same key `insyte::<name>::<today>` is
incremented — the second call takes the count from N to N+1 and adds no
new field. -/
theorem track_twice_same_day_increments (ins : Tracker) (now : CivilDate)
    (name : String) (event : Json) (s : Store) :
    (ins.track now name event false s).2 =
      [StoreOp.expire (ephemeralKey name now) ins.retention,
       StoreOp.hincrby (ephemeralKey name now) (fieldOf event) 1]
    ∧ (ins.track now name event false ((ins.track now name event false s).1)).2 =
        (ins.track now name event false s).2
    ∧ ((ins.track now name event false s).1).hashGet
        (ephemeralKey name now) (fieldOf event)
        = some (s.countOf (ephemeralKey name now) (fieldOf event) + 1)
    ∧ ((ins.track now name event false ((ins.track now name event false s).1)).1).hashGet
        (ephemeralKey name now) (fieldOf event)
        = some (s.countOf (ephemeralKey name now) (fieldOf event) + 2)
    ∧ ((((ins.track now name event false ((ins.track now name event false s).1)).1).lookup
          (ephemeralKey name now)).getD []).map Prod.fst
        = ((((ins.track now name event false s).1).lookup
            (ephemeralKey name now)).getD []).map Prod.fst := by
  refine ⟨rfl, rfl, track_ephemeral_hashGet ins now name event s, ?_, ?_⟩
  · rw [track_ephemeral_hashGet ins now name event,
        Store.countOf_of_hashGet _ _ _ _ (track_ephemeral_hashGet ins now name event s)]
    ring_nf
  · rw [track_ephemeral_eq ins now name event ((ins.track now name event false s).1)]
    have hs1 : (((ins.track now name event false s).1).lookup (ephemeralKey name now))
        = some (Hash.incr (((s.expire (ephemeralKey name now) ins.retention).lookup
            (ephemeralKey name now)).getD []) (fieldOf event) 1) := by
      rw [track_ephemeral_eq]
      exact Store.lookup_hincrby_self _ _ _ _
    have hlook : ((s.expire (ephemeralKey name now) ins.retention).hincrby
          (ephemeralKey name now) (fieldOf event) 1).lookup (ephemeralKey name now)
        = ((ins.track now name event false s).1).lookup (ephemeralKey name now) := by
      rw [track_ephemeral_eq]
    show ((((((ins.track now name event false s).1).expire (ephemeralKey name now)
        ins.retention).hincrby (ephemeralKey name now) (fieldOf event) 1).lookup
        (ephemeralKey name now)).getD []).map Prod.fst = _
    rw [Store.lookup_hincrby_self, Store.lookup_expire, hs1]
    simp only [Option.getD_some]
    apply Hash.fst_incr_of_mem
    rw [Hash.get_incr_self]
    rfl

theorem Store.ttlGet_hincrby (s : Store) (k f : String) (d : Int) (k' : String) :
    (s.hincrby k f d).ttlGet k' = s.ttlGet k' := by
  unfold Store.ttlGet
  rw [Store.ttl_hincrby]

theorem Store.expire_of_absent (s : Store) (k : String) (t : Int)
    (h : s.lookup k = none) : s.expire k t = s := by
  unfold Store.expire
  rw [h]

/-- Claim C3: an ephemeral `track` always issues `EXPIRE` with exactly the
configured retention — 604800 by default, the constructor argument
otherwise (e.g. 120) — and on an existing key the stored TTL becomes that
retention. -/
theorem track_sets_configured_retention (opts : Option InsyteOpts)
    (now : CivilDate) (name : String) (event : Json) (s : Store)
    (hk : (s.lookup (ephemeralKey name now)).isSome = true) :
    ((Tracker.new opts).track now name event false s).2 =
      [StoreOp.expire (ephemeralKey name now) (Tracker.new opts).retention,
       StoreOp.hincrby (ephemeralKey name now) (fieldOf event) 1]
    ∧ (((Tracker.new opts).track now name event false s).1).ttlGet (ephemeralKey name now)
        = some (Tracker.new opts).retention
    ∧ (Tracker.new none).retention = 604800
    ∧ (Tracker.new (some ⟨120⟩)).retention = 120 := by
  refine ⟨rfl, ?_, rfl, rfl⟩
  rw [track_ephemeral_eq]
  show ((s.expire (ephemeralKey name now) (Tracker.new opts).retention).hincrby
      (ephemeralKey name now) (fieldOf event) 1).ttlGet (ephemeralKey name now) = _
  rw [Store.ttlGet_hincrby]
  exact Store.ttlGet_expire_self _ _ _ hk

theorem track_sets_configured_retention_witness :
    ((Store.mk [("insyte::pv::10/01/2024", [("x", 1)])] []).lookup
        (ephemeralKey "pv" ⟨2024, 1, 10⟩)).isSome = true
    ∧ (((Tracker.new (some ⟨120⟩)).track ⟨2024, 1, 10⟩ "pv" Json.null false
          (Store.mk [("insyte::pv::10/01/2024", [("x", 1)])] [])).2 =
        [StoreOp.expire (ephemeralKey "pv" ⟨2024, 1, 10⟩)
            (Tracker.new (some ⟨120⟩)).retention,
         StoreOp.hincrby (ephemeralKey "pv" ⟨2024, 1, 10⟩) (fieldOf Json.null) 1]
      ∧ (((Tracker.new (some ⟨120⟩)).track ⟨2024, 1, 10⟩ "pv" Json.null false
            (Store.mk [("insyte::pv::10/01/2024", [("x", 1)])] [])).1).ttlGet
          (ephemeralKey "pv" ⟨2024, 1, 10⟩) = some (Tracker.new (some ⟨120⟩)).retention
      ∧ (Tracker.new none).retention = 604800
      ∧ (Tracker.new (some ⟨120⟩)).retention = 120) :=
  ⟨by decide,
   track_sets_configured_retention (some ⟨120⟩) ⟨2024, 1, 10⟩ "pv" Json.null
     (Store.mk [("insyte::pv::10/01/2024", [("x", 1)])] []) (by decide)⟩

/-- Claim C4: a persisted `track` issues exactly one store request — the atomic
`HINCRBY` on `insyte::<name>` — never an `EXPIRE`; the TTL table is
untouched and the count keeps accumulating. -/
theorem track_persist_no_ttl (ins : Tracker) (now : CivilDate) (name : String)
    (event : Json) (s : Store) :
    (ins.track now name event true s).2 =
      [StoreOp.hincrby (persistKey name) (fieldOf event) 1]
    ∧ ((ins.track now name event true s).1).ttl = s.ttl
    ∧ (ins.track now name event true s).1 =
        s.hincrby (persistKey name) (fieldOf event) 1
    ∧ ((ins.track now name event true s).1).hashGet (persistKey name) (fieldOf event)
        = some (s.countOf (persistKey name) (fieldOf event) + 1) := by
  refine ⟨rfl, rfl, rfl, ?_⟩
  rw [track_persist_eq]
  exact Store.hashGet_hincrby_self s _ _ 1

/-- Claim C5: `retrieve` on a key the store holds nothing for (absent hash, or an
empty one) returns the input date with an empty event list. -/
theorem retrieve_empty_hash (name date : String) (s : Store)
    (h : s.hgetall (dayKey name date) = none ∨ s.hgetall (dayKey name date) = some []) :
    Tracker.retrieve name date s =
      ({ date := date, event := [] }, [StoreOp.hgetall (dayKey name date)]) := by
  unfold Tracker.retrieve
  simp only [dayKey] at h
  rcases h with h | h <;> simp [h, dayKey]

theorem retrieve_empty_hash_witness :
    ((Store.mk [] []).hgetall (dayKey "pv" "01/01/2024") = none
      ∨ (Store.mk [] []).hgetall (dayKey "pv" "01/01/2024") = some [])
    ∧ Tracker.retrieve "pv" "01/01/2024" (Store.mk [] []) =
        ({ date := "01/01/2024", event := [] },
         [StoreOp.hgetall (dayKey "pv" "01/01/2024")]) :=
  ⟨Or.inl rfl, retrieve_empty_hash "pv" "01/01/2024" (Store.mk [] []) (Or.inl rfl)⟩

/-- Claim C6: `retrieve` reads `insyte::<name>::<date>` and echoes the input
date; each stored hash entry is exposed as the raw field string (not
JSON-decoded) paired with its numeric count. -/
theorem retrieve_exposes_raw_fields (name date : String) (s : Store) (h : Hash)
    (hh : s.hgetall (dayKey name date) = some h) :
    ((Tracker.retrieve name date s).1).date = date
    ∧ ((Tracker.retrieve name date s).1).event = h
    ∧ (Tracker.retrieve name date s).2 = [StoreOp.hgetall (dayKey name date)] := by
  unfold Tracker.retrieve
  simp only [dayKey] at hh
  simp [hh, dayKey]

theorem retrieve_exposes_raw_fields_witness :
    (Store.mk [("insyte::pv::01/01/2024", [("\x7b\x22event\x22:null\x7d", 2)])] []).hgetall
        (dayKey "pv" "01/01/2024") = some [("\x7b\x22event\x22:null\x7d", 2)]
    ∧ (((Tracker.retrieve "pv" "01/01/2024"
          (Store.mk [("insyte::pv::01/01/2024", [("\x7b\x22event\x22:null\x7d", 2)])] [])).1).date
        = "01/01/2024"
      ∧ ((Tracker.retrieve "pv" "01/01/2024"
            (Store.mk [("insyte::pv::01/01/2024", [("\x7b\x22event\x22:null\x7d", 2)])] [])).1).event
          = [("\x7b\x22event\x22:null\x7d", 2)]
      ∧ (Tracker.retrieve "pv" "01/01/2024"
            (Store.mk [("insyte::pv::01/01/2024", [("\x7b\x22event\x22:null\x7d", 2)])] [])).2
          = [StoreOp.hgetall (dayKey "pv" "01/01/2024")]) :=
  ⟨by decide,
   retrieve_exposes_raw_fields "pv" "01/01/2024"
     (Store.mk [("insyte::pv::01/01/2024", [("\x7b\x22event\x22:null\x7d", 2)])] [])
     [("\x7b\x22event\x22:null\x7d", 2)] (by decide)⟩

/-- Claim C8: the ephemeral `track` issues `EXPIRE` strictly before the
`HINCRBY` that may create the key; on a genuinely new key the expiry is
therefore a no-op and the key is created without any TTL. -/
theorem track_expire_precedes_incr (ins : Tracker) (now : CivilDate)
    (name : String) (event : Json) (s : Store)
    (hnew : s.lookup (ephemeralKey name now) = none) :
    (ins.track now name event false s).2 =
      [StoreOp.expire (ephemeralKey name now) ins.retention,
       StoreOp.hincrby (ephemeralKey name now) (fieldOf event) 1]
    ∧ ((ins.track now name event false s).1).ttl = s.ttl := by
  refine ⟨rfl, ?_⟩
  rw [track_ephemeral_eq]
  show ((s.expire (ephemeralKey name now) ins.retention).hincrby
      (ephemeralKey name now) (fieldOf event) 1).ttl = s.ttl
  rw [Store.ttl_hincrby, Store.expire_of_absent _ _ _ hnew]

theorem track_expire_precedes_incr_witness :
    (Store.mk [] []).lookup (ephemeralKey "pv" ⟨2024, 1, 10⟩) = none
    ∧ (((Tracker.new none).track ⟨2024, 1, 10⟩ "pv" Json.null false (Store.mk [] [])).2 =
        [StoreOp.expire (ephemeralKey "pv" ⟨2024, 1, 10⟩) (Tracker.new none).retention,
         StoreOp.hincrby (ephemeralKey "pv" ⟨2024, 1, 10⟩) (fieldOf Json.null) 1]
      ∧ (((Tracker.new none).track ⟨2024, 1, 10⟩ "pv" Json.null false
            (Store.mk [] [])).1).ttl = (Store.mk [] []).ttl) :=
  ⟨by decide,
   track_expire_precedes_incr (Tracker.new none) ⟨2024, 1, 10⟩ "pv" Json.null
     (Store.mk [] []) (by decide)⟩

/-- Claim C9: a retention of 0 is falsy, so the constructor's truthiness guard
skips it and the tracker keeps the default 604800 seconds. -/
theorem retention_zero_keeps_default :
    (Tracker.new (some ⟨0⟩)).retention = defaultRetention
    ∧ defaultRetention = 604800
    ∧ Tracker.new (some ⟨0⟩) = Tracker.new none := by
  refine ⟨rfl, rfl, rfl⟩

/-! ## Calendar lemmas -/

theorem daysInMonth_le (m y : Nat) : daysInMonth m y ≤ 31 := by
  unfold daysInMonth
  split_ifs <;> omega

theorem daysInMonth_pos (m y : Nat) : 1 ≤ daysInMonth m y := by
  unfold daysInMonth
  split_ifs <;> omega

theorem prevDay_lt (d : CivilDate) (h : validDate d) :
    dateLt (prevDay d) d = true := by
  obtain ⟨h1, h2, h3, h4, h5⟩ := h
  unfold prevDay dateLt
  split_ifs with hd hm <;> simp <;> omega

theorem prevDay_valid (d : CivilDate) (h : validDate d)
    (hne : d ≠ ⟨1, 1, 1⟩) : validDate (prevDay d) := by
  obtain ⟨y, m, dd⟩ := d
  obtain ⟨h1, h2, h3, h4, h5⟩ := h
  simp only at h1 h2 h3 h4 h5
  unfold prevDay validDate
  split_ifs with hd hm
  · exact ⟨h1, h2, h3, by simp only at hd ⊢; omega, by simp only at hd ⊢; omega⟩
  · exact ⟨h1, by simp only at hm ⊢; omega, by simp only at hm ⊢; omega,
      daysInMonth_pos _ _, le_refl _⟩
  · simp only at hd hm ⊢
    refine ⟨?_, by omega, by omega, by omega, ?_⟩
    · have hy : 2 ≤ y := by
        rcases Nat.lt_or_ge y 2 with hy | hy
        · exfalso
          apply hne
          simp only [CivilDate.mk.injEq]
          omega
        · exact hy
      omega
    · show 31 ≤ daysInMonth 12 (y - 1)
      unfold daysInMonth
      norm_num

theorem prevDay_year_le (d : CivilDate) : (prevDay d).year ≤ d.year := by
  obtain ⟨y, m, dd⟩ := d
  unfold prevDay
  split_ifs <;> simp

theorem subDays_year_le (now : CivilDate) (i : Nat) :
    (subDays now i).year ≤ now.year := by
  induction i with
  | zero => exact le_refl _
  | succ n ih => exact le_trans (prevDay_year_le _) ih

theorem dateLt_trans (a b c : CivilDate) (hab : dateLt a b = true)
    (hbc : dateLt b c = true) : dateLt a c = true := by
  unfold dateLt at *
  simp at *
  omega

/-- Going strictly further back in the calendar gives a strictly earlier
date, as long as every date passed through is representable. -/
theorem subDays_strict_anti (now : CivilDate) (i j : Nat) (hij : i < j)
    (hv : ∀ k, k < j → validDate (subDays now k)) :
    dateLt (subDays now j) (subDays now i) = true := by
  induction j with
  | zero => omega
  | succ n ih =>
      have hstep : dateLt (subDays now (n + 1)) (subDays now n) = true :=
        prevDay_lt _ (hv n (Nat.lt_succ_self n))
      rcases Nat.lt_or_ge i n with hin | hin
      · exact dateLt_trans _ _ _ hstep
          (ih hin (fun k hk => hv k (Nat.lt_succ_of_lt hk)))
      · have : i = n := by omega
        subst this
        exact hstep

/-! ## Format / parse round trip -/

theorem digitVal_digitChar : ∀ k, k < 10 → digitVal (Nat.digitChar k) = some k := by
  decide

theorem digitVal_digitChar_mod (n : Nat) :
    digitVal (Nat.digitChar (n % 10)) = some (n % 10) :=
  digitVal_digitChar _ (Nat.mod_lt _ (by omega))

/-- Formatting a representable date with a four-digit year and parsing it
back is the identity. -/
theorem parseDate_formatDate (d : CivilDate) (h : validDate d)
    (hy : d.year ≤ 9999) : parseDate (formatDate d) = some d := by
  obtain ⟨y, m, dd⟩ := d
  obtain ⟨h1, h2, h3, h4, h5⟩ := h
  simp only at h1 h2 h3 h4 h5 hy
  have hdd : dd ≤ 31 := le_trans h5 (daysInMonth_le _ _)
  show readDate (pad2 dd ++ '/' :: pad2 m ++ '/' :: pad4 y) = some ⟨y, m, dd⟩
  simp only [pad2, pad4, List.cons_append, List.nil_append, readDate,
    digitVal_digitChar_mod]
  norm_num [CivilDate.mk.injEq]
  omega

/-! ## Sorting lemmas -/

theorem mem_insertAsc (x y : RetrieveResult) (l : List RetrieveResult)
    (h : y ∈ insertAsc x l) : y = x ∨ y ∈ l := by
  induction l with
  | nil => simpa [insertAsc] using h
  | cons z t ih =>
      unfold insertAsc at h
      by_cases hz : jsGt x z
      · rw [if_pos hz] at h
        rcases List.mem_cons.1 h with h | h
        · exact Or.inr (List.mem_cons.2 (Or.inl h))
        · rcases ih h with h | h
          · exact Or.inl h
          · exact Or.inr (List.mem_cons.2 (Or.inr h))
      · rw [if_neg hz] at h
        rcases List.mem_cons.1 h with h | h
        · exact Or.inl h
        · exact Or.inr h

theorem mem_sortResults (y : RetrieveResult) (l : List RetrieveResult)
    (h : y ∈ sortResults l) : y ∈ l := by
  induction l with
  | nil => simp [sortResults] at h
  | cons z t ih =>
      unfold sortResults at h
      rcases mem_insertAsc z y (sortResults t) h with h | h
      · exact h ▸ List.mem_cons_self _ _
      · exact List.mem_cons.2 (Or.inr (ih h))

theorem insertAsc_of_gt_all (x : RetrieveResult) (l : List RetrieveResult)
    (h : ∀ y ∈ l, jsGt x y = true) : insertAsc x l = l ++ [x] := by
  induction l with
  | nil => rfl
  | cons z t ih =>
      unfold insertAsc
      rw [if_pos (h z (List.mem_cons_self _ _))]
      rw [ih (fun y hy => h y (List.mem_cons.2 (Or.inr hy)))]
      rfl

/-- On a list sorted strictly newest-first the comparator-driven sort is
exactly reversal. -/
theorem sortResults_of_desc (l : List RetrieveResult)
    (h : l.Pairwise (fun a b => jsGt a b = true)) :
    sortResults l = l.reverse := by
  induction l with
  | nil => rfl
  | cons x t ih =>
      rw [List.pairwise_cons] at h
      unfold sortResults
      rw [ih h.2, insertAsc_of_gt_all]
      · rw [List.reverse_cons]
      · intro y hy
        exact h.1 y (List.mem_reverse.1 hy)

theorem retrieveDays_fst_eq (now : CivilDate) (name : String) (n : Nat)
    (s : Store) :
    (Tracker.retrieveDays now name (n : Int) s).1 =
      sortResults (dayResults now name n s) := by
  unfold Tracker.retrieveDays dayResults
  simp [List.map_map]
  rfl

theorem parse_dayResult (now : CivilDate) (name : String) (s : Store)
    (hy : now.year ≤ 9999) (i : Nat) (hv : validDate (subDays now i)) :
    parseDate (((Tracker.retrieve name (getDate now i) s).1).date)
      = some (subDays now i) := by
  show parseDate (getDate now i) = some (subDays now i)
  unfold getDate
  exact parseDate_formatDate _ hv (le_trans (subDays_year_le now i) hy)

theorem dayResults_pairwise (now : CivilDate) (name : String) (n : Nat)
    (s : Store) (hv : ∀ i, i < n → validDate (subDays now i))
    (hy : now.year ≤ 9999) :
    (dayResults now name n s).Pairwise (fun a b => jsGt a b = true) := by
  unfold dayResults
  rw [List.pairwise_map]
  refine List.Pairwise.imp_of_mem ?_ (List.pairwise_lt_range n)
  intro i j hi hj hij
  rw [List.mem_range] at hi hj
  show jsGt _ _ = true
  unfold jsGt
  rw [parse_dayResult now name s hy i (hv i hi),
      parse_dayResult now name s hy j (hv j hj)]
  show dateLt (subDays now j) (subDays now i) = true
  exact subDays_strict_anti now i j hij (fun k hk => hv k (lt_trans hk hj))

/-- Claim C2: for positive `n` (with every day in the window representable and a
four-digit year), `retrieveDays` returns exactly `n` results whose parsed
dates are strictly ascending, oldest first, and are exactly today together
with the `n - 1` preceding calendar days. -/
theorem retrieveDays_ascending_window (now : CivilDate) (name : String)
    (n : Nat) (s : Store) (hn : 0 < n)
    (hv : ∀ i, i < n → validDate (subDays now i))
    (hy : now.year ≤ 9999) :
    ((Tracker.retrieveDays now name (n : Int) s).1).length = n
    ∧ ((Tracker.retrieveDays now name (n : Int) s).1).map (fun r => parseDate r.date)
        = ((List.range n).reverse).map (fun i => some (subDays now i))
    ∧ ((Tracker.retrieveDays now name (n : Int) s).1).Pairwise
        (fun a b => jsGt b a = true) := by
  have hpair := dayResults_pairwise now name n s hv hy
  have hsorted : (Tracker.retrieveDays now name (n : Int) s).1 =
      (dayResults now name n s).reverse := by
    rw [retrieveDays_fst_eq, sortResults_of_desc _ hpair]
  refine ⟨?_, ?_, ?_⟩
  · rw [hsorted, List.length_reverse]
    unfold dayResults
    rw [List.length_map, List.length_range]
  · rw [hsorted, List.map_reverse, List.map_reverse]
    congr 1
    unfold dayResults
    rw [List.map_map]
    refine List.map_congr_left ?_
    intro i hi
    rw [List.mem_range] at hi
    exact parse_dayResult now name s hy i (hv i hi)
  · rw [hsorted, List.pairwise_reverse]
    exact hpair

theorem retrieveDays_ascending_window_witness :
    (0 < 3 ∧ (∀ i, i < 3 → validDate (subDays ⟨2024, 1, 10⟩ i))
      ∧ (CivilDate.mk 2024 1 10).year ≤ 9999)
    ∧ (((Tracker.retrieveDays ⟨2024, 1, 10⟩ "pv" ((3 : Nat) : Int)
          (Store.mk [] [])).1).length = 3
      ∧ ((Tracker.retrieveDays ⟨2024, 1, 10⟩ "pv" ((3 : Nat) : Int)
            (Store.mk [] [])).1).map (fun r => parseDate r.date)
          = ((List.range 3).reverse).map (fun i => some (subDays ⟨2024, 1, 10⟩ i))
      ∧ ((Tracker.retrieveDays ⟨2024, 1, 10⟩ "pv" ((3 : Nat) : Int)
            (Store.mk [] [])).1).Pairwise (fun a b => jsGt b a = true)) :=
  ⟨⟨by decide, by decide, by decide⟩,
   retrieveDays_ascending_window ⟨2024, 1, 10⟩ "pv" 3 (Store.mk [] [])
     (by decide) (by decide) (by decide)⟩

/-! ## Error propagation -/

theorem promiseAll_first_error {α : Type} (l : List (Except String α))
    (i : Nat) (hi : i < l.length) (e : String)
    (herr : l.get ⟨i, hi⟩ = .error e)
    (hok : ∀ j (hj : j < l.length), j < i → ∃ a, l.get ⟨j, hj⟩ = .ok a) :
    promiseAll l = .error e := by
  induction l generalizing i with
  | nil => simp at hi
  | cons x t ih =>
      cases i with
      | zero =>
          have hx : x = Except.error e := herr
          rw [hx]
          rfl
      | succ i' =>
          obtain ⟨a, ha⟩ := hok 0 (Nat.succ_pos _) (Nat.succ_pos _)
          have hx : x = Except.ok a := ha
          subst hx
          have ht : promiseAll t = .error e := by
            refine ih i' (Nat.lt_of_succ_lt_succ hi) herr ?_
            intro j hj hji
            exact hok (j + 1) (Nat.succ_lt_succ hj) (Nat.succ_lt_succ hji)
          unfold promiseAll
          rw [ht]

theorem get_dayReads (fetch : String → Except String (Option Hash))
    (now : CivilDate) (name : String) (nDays : Int) (i : Nat)
    (hi : i < (dayReads fetch now name nDays).length) :
    (dayReads fetch now name nDays).get ⟨i, hi⟩ =
      Tracker.retrieveE fetch name (getDate now i) := by
  unfold dayReads at hi ⊢
  simp

/-- Claim C7: when the read for day `i` rejects with `e` and every earlier day's
read succeeds, the whole `retrieveDays` call rejects with the very same
error — no partial result, identity preserved through the catch/re-throw. -/
theorem retrieveDays_fail_fast (fetch : String → Except String (Option Hash))
    (now : CivilDate) (name : String) (nDays : Int) (i : Nat) (e : String)
    (hi : i < nDays.toNat)
    (herr : Tracker.retrieveE fetch name (getDate now i) = .error e)
    (hok : ∀ j, j < i → ∃ r, Tracker.retrieveE fetch name (getDate now j) = .ok r) :
    Tracker.retrieveDaysE fetch now name nDays = .error e := by
  have hlen : (dayReads fetch now name nDays).length = nDays.toNat := by
    unfold dayReads
    simp
  have hall : promiseAll (dayReads fetch now name nDays) = .error e := by
    refine promiseAll_first_error _ i (by rw [hlen]; exact hi) e ?_ ?_
    · rw [get_dayReads]
      exact herr
    · intro j hj hji
      rw [get_dayReads]
      exact hok j hji
  show (match promiseAll (dayReads fetch now name nDays) with
    | .error e => .error e
    | .ok results => .ok (sortResults results)) = Except.error e
  rw [hall]

theorem retrieveDays_fail_fast_witness :
    (1 < (3 : Int).toNat
      ∧ Tracker.retrieveE failingFetch "pv" (getDate ⟨2024, 1, 10⟩ 1) = .error "boom"
      ∧ (∀ j, j < 1 →
          ∃ r, Tracker.retrieveE failingFetch "pv" (getDate ⟨2024, 1, 10⟩ j) = .ok r))
    ∧ Tracker.retrieveDaysE failingFetch ⟨2024, 1, 10⟩ "pv" 3 = .error "boom" :=
  ⟨⟨by decide, by rfl,
    fun j hj => by
      have hj0 : j = 0 := Nat.lt_one_iff.mp hj
      subst hj0
      exact ⟨⟨"10/01/2024", []⟩, by rfl⟩⟩,
   retrieveDays_fail_fast failingFetch ⟨2024, 1, 10⟩ "pv" 3 1 "boom"
     (by decide) (by rfl)
     (fun j hj => by
       have hj0 : j = 0 := Nat.lt_one_iff.mp hj
       subst hj0
       exact ⟨⟨"10/01/2024", []⟩, by rfl⟩)⟩

/-- Claim C10: a non-positive `nDays` makes the `for` loop run zero times, so
`retrieveDays` resolves with the empty array and never touches the store —
no validation of the "positive integer" precondition. -/
theorem retrieveDays_nonpositive (now : CivilDate) (name : String)
    (nDays : Int) (s : Store) (fetch : String → Except String (Option Hash))
    (h : nDays ≤ 0) :
    Tracker.retrieveDays now name nDays s = ([], [])
    ∧ Tracker.retrieveDaysE fetch now name nDays = .ok [] := by
  have h0 : nDays.toNat = 0 := Int.toNat_of_nonpos h
  constructor
  · unfold Tracker.retrieveDays
    rw [h0]
    rfl
  · unfold Tracker.retrieveDaysE
    rw [h0]
    rfl

theorem retrieveDays_nonpositive_witness :
    (-1 : Int) ≤ 0
    ∧ (Tracker.retrieveDays ⟨2024, 1, 10⟩ "pv" (-1) (Store.mk [] []) = ([], [])
      ∧ Tracker.retrieveDaysE (fun _ => .ok none) ⟨2024, 1, 10⟩ "pv" (-1) = .ok []) :=
  ⟨by decide,
   retrieveDays_nonpositive ⟨2024, 1, 10⟩ "pv" (-1) (Store.mk [] [])
     (fun _ => .ok none) (by decide)⟩

end Insyte
